import Mathlib

/-
Verification development for `shootout.py` (Kismet 802.11 datasource
shootout).  The script keeps a registry of tracked data sources (a Python
dict keyed by name, insertion ordered), resolves their UUIDs against the
remote service, then runs a once-per-second loop: a single `Syncing` step
that records per-source packet-count offsets, followed by repeated
`Collecting` steps that maintain a `counts` dict of adjusted packet counts
and print `name count (count / max_count)` lines.

Python dicts are embedded as association lists (`List (String × _)`)
preserving insertion order; dict indexing that can raise `KeyError` is
modelled with `Option`, and the two exceptions reachable in the loop
(`KeyError` from `sources_by_name[ds_name]`, `ValueError` from `max()` on
an empty dict) are explicit outcomes of the step function.  Python integers
are `Int`; the float division `count / max_count` on line 113 is embedded
as exact division in `ℚ` (for the values the claims discuss — 0 and 1 and
the range [0,1] — the rational value determines the printed percentage).
-/

namespace Shootout

/-- The two program states (shootout.py lines 14-16): `Syncing` while
waiting for cards to be tuned, `Collecting` while counting frames. -/
inductive State where
  | Syncing
  | Collecting
deriving DecidableEq

/-- Information about a tracked data source (shootout.py lines 19-24).
All fields start at the class-level defaults (`""`/`0`). -/
structure SourceInfo where
  name : String
  uuid : Nat
  chan : Int
  count : Int
  offset : Int
deriving DecidableEq

/-- One entry of the snapshot returned by `kr.datasources()`: the fields
the script reads (`kismet.datasource.name`, `kismet.datasource.uuid`,
`kismet.datasource.num_packets`). -/
structure Datasource where
  name : String
  uuid : Nat
  num_packets : Int
deriving DecidableEq

/-- Python dict lookup `d[k]` on an insertion-ordered association list:
`none` models a `KeyError`. -/
def dictGet {α : Type} : List (String × α) → String → Option α
  | [], _ => none
  | p :: rest, k => if p.1 = k then some p.2 else dictGet rest k

/-- Python dict assignment `d[k] = v`: replaces the value in place if the
key is present (keeping its position), otherwise appends the new binding. -/
def dictSet {α : Type} : List (String × α) → String → α → List (String × α)
  | [], k, v => [(k, v)]
  | p :: rest, k, v => if p.1 = k then (k, v) :: rest else p :: dictSet rest k v

/-- The keys of a dict in iteration (insertion) order. -/
def dictKeys {α : Type} (d : List (String × α)) : List String := d.map (·.1)

/-- A fresh `SourceInfo` as built on shootout.py lines 53-54: only `name`
is set, every other field keeps its default. -/
def defaultSource (n : String) : SourceInfo :=
  { name := n, uuid := 0, chan := 0, count := 0, offset := 0 }

/-- Registry construction loop, shootout.py lines 51-55: for each
command-line source name, insert a fresh record keyed by the name. -/
def mkRegistryAux (acc : List (String × SourceInfo)) : List String → List (String × SourceInfo)
  | [] => acc
  | n :: rest => mkRegistryAux (dictSet acc n (defaultSource n)) rest

/-- `sources_by_name` after the construction loop (shootout.py lines 51-55). -/
def mkRegistry (names : List String) : List (String × SourceInfo) :=
  mkRegistryAux [] names

/-- Inner UUID-resolution scan (shootout.py lines 72-74): every snapshot
entry whose name matches the record's name overwrites the record's uuid
(the last match wins). -/
def resolveOne (si : SourceInfo) (snap : List Datasource) : SourceInfo :=
  snap.foldl (fun s ds => if ds.name = s.name then { s with uuid := ds.uuid } else s) si

/-- Outer UUID-resolution loop (shootout.py lines 71-77): records are
processed in registry order; the first record left with `uuid = 0` after
its scan aborts the program (`sys.exit(0)`), modelled as `Except.error`
carrying the unresolved name. -/
def resolveGo (snap : List Datasource) :
    List (String × SourceInfo) → List (String × SourceInfo) →
    Except String (List (String × SourceInfo))
  | [], acc => Except.ok acc
  | (n, si) :: rest, acc =>
    if (resolveOne si snap).uuid = 0 then Except.error n
    else resolveGo snap rest (dictSet acc n (resolveOne si snap))

/-- UUID resolution over the whole registry (shootout.py lines 70-77). -/
def resolveUuids (reg : List (String × SourceInfo)) (snap : List Datasource) :
    Except String (List (String × SourceInfo)) :=
  resolveGo snap reg reg

/-- Outcome of the start-up sequence before the polling loop. -/
inductive InitResult where
  | loginFailed
  | unresolvedSource (name : String)
  | ready (reg : List (String × SourceInfo))
deriving DecidableEq

/-- Start-up sequence, shootout.py lines 61-77: session check first
(`sys.exit(1)` on an invalid session, line 67), then UUID resolution
(`sys.exit(0)` on an unresolved source name, line 77); otherwise the
resolved registry reaches the polling loop. -/
def programInit (sessionValid : Bool) (names : List String)
    (snap : List Datasource) : InitResult :=
  if sessionValid then
    match resolveUuids (mkRegistry names) snap with
    | Except.error n => InitResult.unresolvedSource n
    | Except.ok reg => InitResult.ready reg
  else InitResult.loginFailed

/-- The exit status each start-up outcome produces (`none`: the program
continues into the polling loop). -/
def exitCodeOf : InitResult → Option Nat
  | InitResult.loginFailed => some 1
  | InitResult.unresolvedSource _ => some 0
  | InitResult.ready _ => none

/-- Python `max` over a nonempty list of ints (`max(counts.values())`,
shootout.py line 109).  The `[]` case is unreachable in the loop: an empty
`counts` dict is reported as a `ValueError` before `listMax` is consulted. -/
def listMax : List Int → Int
  | [] => 0
  | x :: xs => xs.foldl max x

/-- Divisor adjustment, shootout.py line 110: `if max_count == 0:
max_count = 1`. -/
def divisor (m : Int) : Int := if m = 0 then 1 else m

/-- The report built on shootout.py lines 112-113: one `(name, count,
fraction)` triple per entry of the `counts` dict, in dict iteration order,
with `fraction = count / max_count` (exact division in `ℚ`). -/
def mkReport (cs : List (String × Int)) : List (String × Int × ℚ) :=
  cs.map (fun p => (p.1, p.2, (p.2 : ℚ) / ((divisor (listMax (cs.map (·.2))) : Int) : ℚ)))

/-- Offset-recording loop of the `Syncing` branch (shootout.py lines
96-99): for each snapshot entry, `sources_by_name[ds_name].offset =
ds['kismet.datasource.num_packets']`; a snapshot name absent from the
registry raises `KeyError` (`none`). -/
def syncFold (reg : List (String × SourceInfo)) :
    List Datasource → Option (List (String × SourceInfo))
  | [] => some reg
  | ds :: rest =>
    match dictGet reg ds.name with
    | none => none
    | some si => syncFold (dictSet reg ds.name { si with offset := ds.num_packets }) rest

/-- Count-updating loop of the `Collecting` branch (shootout.py lines
105-107): `counts[ds_name] = ds['kismet.datasource.num_packets'] -
sources_by_name[ds_name].offset`; a snapshot name absent from the registry
raises `KeyError` (`none`). -/
def countsFold (reg : List (String × SourceInfo)) (counts : List (String × Int)) :
    List Datasource → Option (List (String × Int))
  | [] => some counts
  | ds :: rest =>
    match dictGet reg ds.name with
    | none => none
    | some si => countsFold reg (dictSet counts ds.name (ds.num_packets - si.offset)) rest

/-- The mutable state of the polling loop: the `state` variable (line 80),
`sources_by_name` (lines 51-55, mutated on line 98) and the `counts` dict
(line 87, mutated on line 107). -/
structure LoopState where
  state : State
  sources : List (String × SourceInfo)
  counts : List (String × Int)
deriving DecidableEq

/-- Result of one iteration of the `while True` loop: normal continuation
with the report lines printed, an unhandled `KeyError` (lines 98/107), an
unhandled `ValueError` (`max()` of an empty dict, line 109), or the
defensive "State error" branch that exits with status 1 (lines 115-117). -/
inductive StepResult where
  | keyError
  | valueError
  | stateError
  | ok (ls : LoopState) (rep : List (String × Int × ℚ))
deriving DecidableEq

/-- One iteration of the polling loop (shootout.py lines 89-119), given
the snapshot fetched by `kr.datasources()` on line 90.  The `Syncing`
branch records offsets and transitions to `Collecting` (printing no report
lines); the `Collecting` branch updates the `counts` dict and reports each
entry; any other state hits the defensive `else` branch. -/
def step (ls : LoopState) (snap : List Datasource) : StepResult :=
  if ls.state = State.Syncing then
    match syncFold ls.sources snap with
    | none => StepResult.keyError
    | some reg => StepResult.ok ⟨State.Collecting, reg, ls.counts⟩ []
  else if ls.state = State.Collecting then
    match countsFold ls.sources ls.counts snap with
    | none => StepResult.keyError
    | some cs =>
      if cs = [] then StepResult.valueError
      else StepResult.ok ⟨ls.state, ls.sources, cs⟩ (mkReport cs)
  else StepResult.stateError

/-- Loop state on entry to the `while True` loop: `state = State.Syncing`
(line 80) and an empty `counts` dict (line 87). -/
def loopInit (reg : List (String × SourceInfo)) : LoopState :=
  ⟨State.Syncing, reg, []⟩

/-- Running the loop over a list of successive snapshots, keeping only the
loop state; `none` when some iteration raises or hits the defensive
branch. -/
def runStates : LoopState → List (List Datasource) → Option LoopState
  | ls, [] => some ls
  | ls, snap :: rest =>
    match step ls snap with
    | StepResult.ok ls2 _ => runStates ls2 rest
    | _ => none

/-- The state component an iteration hands to the next one, when it
completes normally. -/
def stepStateOf : StepResult → Option State
  | StepResult.ok ls _ => some ls.state
  | _ => none

/-! Basic facts about the dict embedding. -/

theorem dictGet_dictSet_self {α : Type} (d : List (String × α)) (k : String) (v : α) :
    dictGet (dictSet d k v) k = some v := by
  induction d with
  | nil => simp [dictGet, dictSet]
  | cons p rest ih =>
    by_cases h : p.1 = k
    · simp [dictGet, dictSet, h]
    · simp [dictGet, dictSet, h, ih]

theorem dictGet_dictSet_ne {α : Type} (d : List (String × α)) (k k' : String) (v : α)
    (h : k' ≠ k) : dictGet (dictSet d k v) k' = dictGet d k' := by
  induction d with
  | nil => simp [dictGet, dictSet, Ne.symm h]
  | cons p rest ih =>
    by_cases hp : p.1 = k
    · subst hp
      simp [dictGet, dictSet, Ne.symm h]
    · by_cases hp' : p.1 = k'
      · simp [dictGet, dictSet, hp, hp', h, Ne.symm h]
      · simp [dictGet, dictSet, hp, hp', ih]

theorem dictGet_dictSet_isSome {α : Type} (d : List (String × α)) (k k' : String) (v : α)
    (h : (dictGet d k').isSome) : (dictGet (dictSet d k v) k').isSome := by
  by_cases hk : k' = k
  · subst hk; simp [dictGet_dictSet_self]
  · rw [dictGet_dictSet_ne d k k' v hk]; exact h

theorem mem_of_dictGet {α : Type} {d : List (String × α)} {k : String} {v : α}
    (h : dictGet d k = some v) : (k, v) ∈ d := by
  induction d with
  | nil => simp [dictGet] at h
  | cons p rest ih =>
    by_cases hp : p.1 = k
    · simp only [dictGet, hp, if_pos] at h
      have : p = (k, v) := by
        cases p
        simp_all
      simp [this]
    · simp only [dictGet, hp, if_neg, if_false] at h
      exact List.mem_cons_of_mem _ (ih h)

theorem mem_dictSet {α : Type} {p : String × α} :
    ∀ {d : List (String × α)} {k : String} {v : α},
      p ∈ dictSet d k v → p ∈ d ∨ p = (k, v) := by
  intro d
  induction d with
  | nil =>
    intro k v h
    simp [dictSet] at h
    exact Or.inr h
  | cons q rest ih =>
    intro k v h
    by_cases hq : q.1 = k
    · simp only [dictSet, hq, if_pos] at h
      rcases List.mem_cons.mp h with h1 | h2
      · exact Or.inr h1
      · exact Or.inl (List.mem_cons_of_mem _ h2)
    · simp only [dictSet, hq, if_neg, if_false] at h
      rcases List.mem_cons.mp h with h1 | h2
      · exact Or.inl (by simp [h1])
      · rcases ih h2 with h3 | h3
        · exact Or.inl (List.mem_cons_of_mem _ h3)
        · exact Or.inr h3

theorem dictKeys_dictSet_of_none {α : Type} {d : List (String × α)} {k : String} {v : α}
    (h : dictGet d k = none) : dictKeys (dictSet d k v) = dictKeys d ++ [k] := by
  induction d with
  | nil => simp [dictKeys, dictSet]
  | cons p rest ih =>
    by_cases hp : p.1 = k
    · simp [dictGet, hp] at h
    · simp only [dictGet, hp, if_neg, if_false] at h
      simp [dictKeys, dictSet, hp] at ih ⊢
      exact ih h

theorem dictKeys_dictSet_of_some {α : Type} {d : List (String × α)} {k : String}
    {v0 v : α} (h : dictGet d k = some v0) : dictKeys (dictSet d k v) = dictKeys d := by
  induction d with
  | nil => simp [dictGet] at h
  | cons p rest ih =>
    by_cases hp : p.1 = k
    · simp [dictKeys, dictSet, hp]
    · simp only [dictGet, hp, if_neg, if_false] at h
      simp [dictKeys, dictSet, hp] at ih ⊢
      exact ih h

/-! Facts about `listMax` (Python `max` on a nonempty list). -/

theorem le_foldl_max : ∀ (xs : List Int) (a : Int), a ≤ xs.foldl max a := by
  intro xs
  induction xs with
  | nil => intro a; simp
  | cons x xs ih =>
    intro a
    calc a ≤ max a x := le_max_left a x
    _ ≤ (xs.foldl max (max a x)) := ih (max a x)

theorem mem_le_foldl_max : ∀ (xs : List Int) (a x : Int), x ∈ xs → x ≤ xs.foldl max a := by
  intro xs
  induction xs with
  | nil => intro a x h; simp at h
  | cons y ys ih =>
    intro a x h
    rcases List.mem_cons.mp h with h1 | h2
    · subst h1
      calc x ≤ max a x := le_max_right a x
      _ ≤ ys.foldl max (max a x) := le_foldl_max ys (max a x)
    · exact ih (max a y) x h2

theorem le_listMax {x : Int} {l : List Int} (h : x ∈ l) : x ≤ listMax l := by
  cases l with
  | nil => simp at h
  | cons y ys =>
    rcases List.mem_cons.mp h with h1 | h2
    · subst h1; exact le_foldl_max ys x
    · exact mem_le_foldl_max ys y x h2

theorem foldl_max_le {b : Int} : ∀ (xs : List Int) (a : Int),
    a ≤ b → (∀ x ∈ xs, x ≤ b) → xs.foldl max a ≤ b := by
  intro xs
  induction xs with
  | nil => intro a ha _; simpa using ha
  | cons y ys ih =>
    intro a ha hall
    refine ih (max a y) (max_le ha (hall y (List.mem_cons_self y ys))) ?_
    intro x hx
    exact hall x (List.mem_cons_of_mem _ hx)

theorem listMax_le {b : Int} {l : List Int} (hne : l ≠ [])
    (hall : ∀ x ∈ l, x ≤ b) : listMax l ≤ b := by
  cases l with
  | nil => exact absurd rfl hne
  | cons y ys =>
    exact foldl_max_le ys y (hall y (List.mem_cons_self y ys))
      (fun x hx => hall x (List.mem_cons_of_mem _ hx))

theorem listMax_nonneg {l : List Int} (hne : l ≠ []) (hall : ∀ x ∈ l, 0 ≤ x) :
    0 ≤ listMax l := by
  cases l with
  | nil => exact absurd rfl hne
  | cons y ys =>
    exact le_trans (hall y (List.mem_cons_self y ys)) (le_listMax (List.mem_cons_self y ys))

/-! Facts about the `Collecting` branch's count-updating loop. -/

theorem countsFold_none {reg : List (String × SourceInfo)} {ds : Datasource} :
    ∀ {snap : List Datasource} {counts : List (String × Int)},
      ds ∈ snap → dictGet reg ds.name = none → countsFold reg counts snap = none := by
  intro snap
  induction snap with
  | nil => intro counts h; simp at h
  | cons d rest ih =>
    intro counts h hnone
    rcases List.mem_cons.mp h with h1 | h2
    · subst h1
      simp [countsFold, hnone]
    · cases hd : dictGet reg d.name with
      | none => simp [countsFold, hd]
      | some si => simp [countsFold, hd]; exact ih h2 hnone

theorem countsFold_get_of_not_mem {reg : List (String × SourceInfo)} {n : String} :
    ∀ {snap : List Datasource} {counts cs : List (String × Int)},
      (∀ ds ∈ snap, ds.name ≠ n) → countsFold reg counts snap = some cs →
      dictGet cs n = dictGet counts n := by
  intro snap
  induction snap with
  | nil =>
    intro counts cs _ hfold
    simp [countsFold] at hfold
    subst hfold; rfl
  | cons d rest ih =>
    intro counts cs hnames hfold
    cases hd : dictGet reg d.name with
    | none => simp [countsFold, hd] at hfold
    | some si =>
      simp only [countsFold, hd] at hfold
      have hrest : ∀ ds ∈ rest, ds.name ≠ n :=
        fun ds hds => hnames ds (List.mem_cons_of_mem _ hds)
      rw [ih hrest hfold]
      exact dictGet_dictSet_ne counts d.name n _
        (fun hh => hnames d (List.mem_cons_self d rest) hh.symm)

theorem countsFold_some_get {reg : List (String × SourceInfo)} {n : String}
    {si : SourceInfo} {e : Datasource} :
    ∀ {snap : List Datasource} {counts cs : List (String × Int)},
      (snap.map (·.name)).Nodup → e ∈ snap → e.name = n →
      dictGet reg n = some si → countsFold reg counts snap = some cs →
      dictGet cs n = some (e.num_packets - si.offset) := by
  intro snap
  induction snap with
  | nil => intro counts cs _ h; simp at h
  | cons d rest ih =>
    intro counts cs hnodup hmem hname hreg hfold
    have hnodup' := hnodup
    rw [List.map_cons, List.nodup_cons] at hnodup'
    rcases List.mem_cons.mp hmem with h1 | h2
    · subst h1
      subst hname
      simp only [countsFold, hreg] at hfold
      have hrest : ∀ ds ∈ rest, ds.name ≠ e.name := by
        intro ds hds hcontra
        exact hnodup'.1 (hcontra ▸ List.mem_map_of_mem (·.name) hds)
      rw [countsFold_get_of_not_mem hrest hfold]
      exact dictGet_dictSet_self counts e.name _
    · have hdne : d.name ≠ n := by
        intro hcontra
        subst hname
        exact hnodup'.1 (hcontra ▸ List.mem_map_of_mem (·.name) h2)
      cases hd : dictGet reg d.name with
      | none => simp [countsFold, hd] at hfold
      | some sid =>
        simp only [countsFold, hd] at hfold
        exact ih hnodup'.2 h2 hname hreg hfold

theorem countsFold_keys {reg : List (String × SourceInfo)} :
    ∀ {snap : List Datasource} {counts cs : List (String × Int)},
      (snap.map (·.name)).Nodup →
      countsFold reg counts snap = some cs →
      dictKeys cs = dictKeys counts ++
        (snap.map (·.name)).filter (fun n => (dictGet counts n).isNone) := by
  intro snap
  induction snap with
  | nil =>
    intro counts cs _ hfold
    simp [countsFold] at hfold
    subst hfold; simp
  | cons d rest ih =>
    intro counts cs hnodup hfold
    have hnodup' := hnodup
    rw [List.map_cons, List.nodup_cons] at hnodup'
    cases hd : dictGet reg d.name with
    | none => simp [countsFold, hd] at hfold
    | some si =>
      simp only [countsFold, hd] at hfold
      have hfilter : (rest.map (·.name)).filter
            (fun n => (dictGet (dictSet counts d.name (d.num_packets - si.offset)) n).isNone) =
          (rest.map (·.name)).filter (fun n => (dictGet counts n).isNone) := by
        refine List.filter_congr ?_
        intro n hn
        have hne : n ≠ d.name := by
          intro hcontra
          exact hnodup'.1 (hcontra ▸ hn)
        rw [dictGet_dictSet_ne counts d.name n _ hne]
      cases hdc : dictGet counts d.name with
      | none =>
        rw [ih hnodup'.2 hfold, hfilter, dictKeys_dictSet_of_none hdc,
          List.map_cons, List.filter_cons]
        simp [hdc]
      | some v0 =>
        rw [ih hnodup'.2 hfold, hfilter, dictKeys_dictSet_of_some hdc,
          List.map_cons, List.filter_cons]
        simp [hdc]

/-! Facts about the `Syncing` branch's offset-recording loop. -/

theorem syncFold_none {ds : Datasource} :
    ∀ {snap : List Datasource} {reg : List (String × SourceInfo)},
      ds ∈ snap → dictGet reg ds.name = none → syncFold reg snap = none := by
  intro snap
  induction snap with
  | nil => intro reg h; simp at h
  | cons d rest ih =>
    intro reg h hnone
    rcases List.mem_cons.mp h with h1 | h2
    · subst h1
      simp [syncFold, hnone]
    · cases hd : dictGet reg d.name with
      | none => simp [syncFold, hd]
      | some si =>
        simp only [syncFold, hd]
        refine ih h2 ?_
        have hne : ds.name ≠ d.name := by
          intro hcontra
          rw [hcontra, hd] at hnone
          exact Option.noConfusion hnone
        rw [dictGet_dictSet_ne reg d.name ds.name _ hne]
        exact hnone

theorem syncFold_get_of_not_mem {n : String} :
    ∀ {snap : List Datasource} {reg reg2 : List (String × SourceInfo)},
      (∀ ds ∈ snap, ds.name ≠ n) → syncFold reg snap = some reg2 →
      dictGet reg2 n = dictGet reg n := by
  intro snap
  induction snap with
  | nil =>
    intro reg reg2 _ hfold
    simp [syncFold] at hfold
    subst hfold; rfl
  | cons d rest ih =>
    intro reg reg2 hnames hfold
    cases hd : dictGet reg d.name with
    | none => simp [syncFold, hd] at hfold
    | some si =>
      simp only [syncFold, hd] at hfold
      have hrest : ∀ ds ∈ rest, ds.name ≠ n :=
        fun ds hds => hnames ds (List.mem_cons_of_mem _ hds)
      rw [ih hrest hfold]
      exact dictGet_dictSet_ne reg d.name n _
        (fun hh => hnames d (List.mem_cons_self d rest) hh.symm)

theorem syncFold_some_get {n : String} {si : SourceInfo} {e : Datasource} :
    ∀ {snap : List Datasource} {reg reg2 : List (String × SourceInfo)},
      (snap.map (·.name)).Nodup → e ∈ snap → e.name = n →
      dictGet reg n = some si → syncFold reg snap = some reg2 →
      dictGet reg2 n = some { si with offset := e.num_packets } := by
  intro snap
  induction snap with
  | nil => intro reg reg2 _ h; simp at h
  | cons d rest ih =>
    intro reg reg2 hnodup hmem hname hreg hfold
    have hnodup' := hnodup
    rw [List.map_cons, List.nodup_cons] at hnodup'
    rcases List.mem_cons.mp hmem with h1 | h2
    · subst h1
      subst hname
      simp only [syncFold, hreg] at hfold
      have hrest : ∀ ds ∈ rest, ds.name ≠ e.name := by
        intro ds hds hcontra
        exact hnodup'.1 (hcontra ▸ List.mem_map_of_mem (·.name) hds)
      rw [syncFold_get_of_not_mem hrest hfold]
      exact dictGet_dictSet_self reg e.name _
    · have hdne : d.name ≠ n := by
        intro hcontra
        subst hname
        exact hnodup'.1 (hcontra ▸ List.mem_map_of_mem (·.name) h2)
      cases hd : dictGet reg d.name with
      | none => simp [syncFold, hd] at hfold
      | some sid =>
        simp only [syncFold, hd] at hfold
        refine ih hnodup'.2 h2 hname ?_ hfold
        rw [dictGet_dictSet_ne reg d.name n _ (Ne.symm hdne)]
        exact hreg

/-! Characterizations of a single loop iteration. -/

theorem step_sync_ok {ls : LoopState} {snap : List Datasource} {ls2 : LoopState}
    {rep : List (String × Int × ℚ)} (h : ls.state = State.Syncing)
    (hstep : step ls snap = StepResult.ok ls2 rep) :
    ∃ reg2, syncFold ls.sources snap = some reg2 ∧
      ls2 = ⟨State.Collecting, reg2, ls.counts⟩ ∧ rep = [] := by
  rw [step, h] at hstep
  simp only [if_pos rfl] at hstep
  cases hsync : syncFold ls.sources snap with
  | none => rw [hsync] at hstep; exact absurd hstep (by simp)
  | some reg2 =>
    rw [hsync] at hstep
    refine ⟨reg2, rfl, ?_, ?_⟩
    · cases hstep; rfl
    · cases hstep; rfl

theorem step_collect_ok {ls : LoopState} {snap : List Datasource} {ls2 : LoopState}
    {rep : List (String × Int × ℚ)} (h : ls.state = State.Collecting)
    (hstep : step ls snap = StepResult.ok ls2 rep) :
    ∃ cs, countsFold ls.sources ls.counts snap = some cs ∧ cs ≠ [] ∧
      ls2 = ⟨State.Collecting, ls.sources, cs⟩ ∧ rep = mkReport cs := by
  rw [step, h] at hstep
  simp only [reduceCtorEq, reduceIte] at hstep
  cases hcf : countsFold ls.sources ls.counts snap with
  | none => rw [hcf] at hstep; simp at hstep
  | some cs =>
    rw [hcf] at hstep
    by_cases hcs : cs = []
    · rw [hcs] at hstep; simp at hstep
    · simp only [hcs, if_false] at hstep
      refine ⟨cs, rfl, hcs, ?_, ?_⟩
      · cases hstep; rfl
      · cases hstep; rfl

theorem runStates_preserves_sources :
    ∀ {snaps : List (List Datasource)} {ls ls2 : LoopState},
      ls.state = State.Collecting → runStates ls snaps = some ls2 →
      ls2.sources = ls.sources ∧ ls2.state = State.Collecting := by
  intro snaps
  induction snaps with
  | nil =>
    intro ls ls2 h hrun
    simp [runStates] at hrun
    subst hrun; exact ⟨rfl, h⟩
  | cons snap rest ih =>
    intro ls ls2 h hrun
    simp only [runStates] at hrun
    cases hst : step ls snap with
    | ok ls1 rep =>
      rw [hst] at hrun
      obtain ⟨cs, _, _, hls1, _⟩ := step_collect_ok h hst
      have := @ih ls1 ls2 (by rw [hls1]) hrun
      refine ⟨?_, this.2⟩
      rw [this.1, hls1]
    | keyError => rw [hst] at hrun; exact absurd hrun (by simp)
    | valueError => rw [hst] at hrun; exact absurd hrun (by simp)
    | stateError => rw [hst] at hrun; exact absurd hrun (by simp)

theorem mkReport_names (cs : List (String × Int)) :
    (mkReport cs).map (·.1) = dictKeys cs := by
  simp [mkReport, dictKeys]

/-! Facts about registry construction and UUID resolution. -/

theorem mkRegistryAux_entry_default :
    ∀ {names : List String} {acc : List (String × SourceInfo)},
      (∀ p ∈ acc, p.2 = defaultSource p.1) →
      ∀ p ∈ mkRegistryAux acc names, p.2 = defaultSource p.1 := by
  intro names
  induction names with
  | nil => intro acc hacc p hp; exact hacc p hp
  | cons n rest ih =>
    intro acc hacc p hp
    refine ih ?_ p hp
    intro q hq
    rcases mem_dictSet hq with h1 | h2
    · exact hacc q h1
    · rw [h2]

theorem mkRegistryAux_get_isSome {n : String} :
    ∀ {names : List String} {acc : List (String × SourceInfo)},
      n ∈ names ∨ (dictGet acc n).isSome →
      (dictGet (mkRegistryAux acc names) n).isSome := by
  intro names
  induction names with
  | nil =>
    intro acc h
    rcases h with h1 | h2
    · simp at h1
    · exact h2
  | cons m rest ih =>
    intro acc h
    by_cases hnm : n = m
    · subst hnm
      refine ih (Or.inr ?_)
      rw [dictGet_dictSet_self]; rfl
    · rcases h with h1 | h2
      · rcases List.mem_cons.mp h1 with h3 | h4
        · exact absurd h3 hnm
        · exact ih (Or.inl h4)
      · exact ih (Or.inr (dictGet_dictSet_isSome _ _ _ _ h2))

theorem resolveOne_no_match :
    ∀ {snap : List Datasource} {si : SourceInfo},
      (∀ ds ∈ snap, ds.name ≠ si.name) → resolveOne si snap = si := by
  intro snap
  induction snap with
  | nil => intro si _; rfl
  | cons d rest ih =>
    intro si h
    have hd : d.name ≠ si.name := h d (List.mem_cons_self d rest)
    show List.foldl _ _ (d :: rest) = si
    rw [List.foldl_cons]
    have : (if d.name = si.name then { si with uuid := d.uuid } else si) = si := if_neg hd
    rw [this]
    exact ih (fun ds hds => h ds (List.mem_cons_of_mem _ hds))

theorem resolveGo_error {snap : List Datasource} :
    ∀ (entries : List (String × SourceInfo)) (acc : List (String × SourceInfo)),
      (∃ p ∈ entries, (resolveOne p.2 snap).uuid = 0) →
      ∃ m, resolveGo snap entries acc = Except.error m := by
  intro entries
  induction entries with
  | nil => intro acc h; simp at h
  | cons q rest ih =>
    intro acc h
    by_cases hq : (resolveOne q.2 snap).uuid = 0
    · refine ⟨q.1, ?_⟩
      cases q
      simp [resolveGo, hq]
    · obtain ⟨p, hp, hp0⟩ := h
      rcases List.mem_cons.mp hp with h1 | h2
      · rw [h1] at hp0; exact absurd hp0 hq
      · cases q
        simp only [resolveGo]
        rw [if_neg hq]
        exact ih _ ⟨p, h2, hp0⟩

/-! Claim theorems. -/

/-- C1: in every collection iteration, for each registered source present
in the freshly fetched snapshot (snapshot names distinct), the count
stored in the `counts` dict and reported for that source is exactly the
snapshot's packet count minus the source's offset, including when the
difference is zero. -/
theorem C1_collect_count_exact (ls : LoopState) (snap : List Datasource)
    (ls2 : LoopState) (rep : List (String × Int × ℚ)) (n : String)
    (si : SourceInfo) (e : Datasource)
    (hstate : ls.state = State.Collecting)
    (hreg : dictGet ls.sources n = some si)
    (hmem : e ∈ snap) (hname : e.name = n)
    (hnodup : (snap.map (·.name)).Nodup)
    (hstep : step ls snap = StepResult.ok ls2 rep) :
    dictGet ls2.counts n = some (e.num_packets - si.offset) ∧
      ∃ f, (n, e.num_packets - si.offset, f) ∈ rep := by
  obtain ⟨cs, hcf, hne, hls2, hrep⟩ := step_collect_ok hstate hstep
  have hget : dictGet cs n = some (e.num_packets - si.offset) :=
    countsFold_some_get hnodup hmem hname hreg hcf
  constructor
  · rw [hls2]; exact hget
  · rw [hrep]
    exact ⟨_, List.mem_map_of_mem _ (mem_of_dictGet hget)⟩

/-- C3: the offset of every registered source present in the sync-time
snapshot is set at the single Syncing→Collecting transition to that
source's packet count from that snapshot, and no later iteration of the
loop modifies the registry (hence the offsets) again. -/
theorem C3_offset_set_once_at_sync (reg : List (String × SourceInfo))
    (snap0 : List Datasource) (ls1 : LoopState) (rep0 : List (String × Int × ℚ))
    (n : String) (si : SourceInfo) (e : Datasource)
    (snaps : List (List Datasource)) (ls2 : LoopState)
    (hstep : step (loopInit reg) snap0 = StepResult.ok ls1 rep0)
    (hreg : dictGet reg n = some si)
    (hmem : e ∈ snap0) (hname : e.name = n)
    (hnodup : (snap0.map (·.name)).Nodup) :
    dictGet ls1.sources n = some { si with offset := e.num_packets } ∧
      ls1.state = State.Collecting ∧
      (runStates ls1 snaps = some ls2 → ls2.sources = ls1.sources) := by
  obtain ⟨reg2, hsync, hls1, _⟩ := step_sync_ok rfl hstep
  refine ⟨?_, ?_, ?_⟩
  · rw [hls1]
    exact syncFold_some_get hnodup hmem hname hreg hsync
  · rw [hls1]
  · intro hrun
    exact (runStates_preserves_sources (by rw [hls1]) hrun).1

/-- C5: both loop branches index the registry with the snapshot's source
name without a membership check, so a snapshot containing a name that was
not registered on the command line makes the iteration raise an unhandled
`KeyError` in either state; the loop is total only when every snapshot
name is registered. -/
theorem C5_unregistered_snapshot_name_raises (ls : LoopState)
    (snap : List Datasource) (ds : Datasource)
    (hmem : ds ∈ snap)
    (hmiss : dictGet ls.sources ds.name = none) :
    step ls snap = StepResult.keyError := by
  cases hst : ls.state with
  | Syncing =>
    rw [step, hst]
    simp only [reduceIte]
    rw [syncFold_none hmem hmiss]
  | Collecting =>
    rw [step, hst]
    simp only [reduceCtorEq, reduceIte]
    rw [countsFold_none hmem hmiss]

/-- C9: the loop's state variable starts at `Syncing`, every completed
iteration hands `Collecting` (never `Syncing`) to the next one, and since
these are the only two members of the state enum, the defensive `else`
branch (report "State error", exit 1) is unreachable: no iteration ever
returns its outcome. -/
theorem C9_state_error_unreachable (reg : List (String × SourceInfo))
    (ls : LoopState) (snap : List Datasource) :
    (loopInit reg).state = State.Syncing ∧
      step ls snap ≠ StepResult.stateError ∧
      stepStateOf (step ls snap) ≠ some State.Syncing := by
  refine ⟨rfl, ?_, ?_⟩
  · cases hst : ls.state with
    | Syncing =>
      rw [step, hst]
      simp only [reduceIte]
      cases syncFold ls.sources snap <;> simp
    | Collecting =>
      rw [step, hst]
      simp only [reduceCtorEq, reduceIte]
      cases countsFold ls.sources ls.counts snap with
      | none => simp
      | some cs =>
        by_cases hcs : cs = [] <;> simp [hcs]
  · cases hst : ls.state with
    | Syncing =>
      rw [step, hst]
      simp only [reduceIte]
      cases syncFold ls.sources snap <;> simp [stepStateOf]
    | Collecting =>
      rw [step, hst]
      simp only [reduceCtorEq, reduceIte]
      cases countsFold ls.sources ls.counts snap with
      | none => simp [stepStateOf]
      | some cs =>
        by_cases hcs : cs = [] <;> simp [hcs, stepStateOf]

/-- C10: the `counts` dict persists across iterations: a source recorded
there that is absent from the current collecting snapshot is neither
dropped nor failed on — its stale adjusted count is kept, re-reported, and
still participates in the maximum used as the divisor. -/
theorem C10_stale_counts_persist (ls : LoopState) (snap : List Datasource)
    (ls2 : LoopState) (rep : List (String × Int × ℚ)) (n : String) (c : Int)
    (hstate : ls.state = State.Collecting)
    (hold : dictGet ls.counts n = some c)
    (habsent : ∀ ds ∈ snap, ds.name ≠ n)
    (hstep : step ls snap = StepResult.ok ls2 rep) :
    dictGet ls2.counts n = some c ∧ (∃ f, (n, c, f) ∈ rep) ∧
      c ≤ listMax (ls2.counts.map (·.2)) := by
  obtain ⟨cs, hcf, hne, hls2, hrep⟩ := step_collect_ok hstate hstep
  have hget : dictGet cs n = some c := by
    rw [countsFold_get_of_not_mem habsent hcf]; exact hold
  refine ⟨by rw [hls2]; exact hget, ?_, ?_⟩
  · rw [hrep]
    exact ⟨_, List.mem_map_of_mem _ (mem_of_dictGet hget)⟩
  · rw [hls2]
    exact le_listMax (List.mem_map_of_mem (·.2) (mem_of_dictGet hget))

/-- C2 (amended): in a collection iteration whose adjusted counts are all
nonnegative, every reported fraction lies in `[0, 1]`; and whenever the
maximum adjusted count is nonzero, every source whose adjusted count
equals that maximum reports a fraction of exactly `1` while the others
report `adjustedCount / maxAdjustedCount`.  (As stated the original claim
fails: a negative adjusted count yields a fraction outside `[0, 1]`, and
when every adjusted count is `0` the maximum source reports `0`, not `1`;
see the counterexample.) -/
theorem C2_fraction_bounds (ls : LoopState) (snap : List Datasource)
    (ls2 : LoopState) (rep : List (String × Int × ℚ))
    (hstate : ls.state = State.Collecting)
    (hstep : step ls snap = StepResult.ok ls2 rep)
    (hpos : ∀ p ∈ ls2.counts, 0 ≤ p.2) :
    (∀ q ∈ rep, 0 ≤ q.2.2 ∧ q.2.2 ≤ 1) ∧
      (listMax (ls2.counts.map (·.2)) ≠ 0 →
        ∀ q ∈ rep, q.2.1 = listMax (ls2.counts.map (·.2)) → q.2.2 = 1) := by
  obtain ⟨cs, hcf, hne, hls2, hrep⟩ := step_collect_ok hstate hstep
  subst hrep
  subst hls2
  dsimp only at hpos ⊢
  have hvne : cs.map (·.2) ≠ ([] : List Int) := by
    intro hcontra
    exact hne (List.map_eq_nil_iff.mp hcontra)
  have hvpos : ∀ v ∈ cs.map (·.2), (0 : Int) ≤ v := by
    intro v hv
    obtain ⟨p, hp, hvp⟩ := List.mem_map.mp hv
    rw [← hvp]
    exact hpos p hp
  have hm0 : (0 : Int) ≤ listMax (cs.map (·.2)) := listMax_nonneg hvne hvpos
  by_cases hm : listMax (cs.map (·.2)) = 0
  · constructor
    · intro q hq
      obtain ⟨p, hp, hfq⟩ := List.mem_map.mp hq
      subst hfq
      dsimp only
      have hple : p.2 ≤ listMax (cs.map (·.2)) :=
        le_listMax (List.mem_map_of_mem (·.2) hp)
      have hp0 : p.2 = 0 := le_antisymm (hm ▸ hple) (hpos p hp)
      rw [divisor, if_pos hm, hp0]
      norm_num
    · intro hcontra
      exact absurd hm hcontra
  · have hmpos : (0 : Int) < listMax (cs.map (·.2)) := lt_of_le_of_ne hm0 (Ne.symm hm)
    have hmq : (0 : ℚ) < ((listMax (cs.map (·.2)) : Int) : ℚ) := by
      exact_mod_cast hmpos
    constructor
    · intro q hq
      obtain ⟨p, hp, hfq⟩ := List.mem_map.mp hq
      subst hfq
      dsimp only
      rw [divisor, if_neg hm]
      constructor
      · refine div_nonneg ?_ (le_of_lt hmq)
        exact_mod_cast hpos p hp
      · rw [div_le_one hmq]
        exact_mod_cast le_listMax (List.mem_map_of_mem (·.2) hp)
    · intro _ q hq hqmax
      obtain ⟨p, hp, hfq⟩ := List.mem_map.mp hq
      subst hfq
      dsimp only at hqmax ⊢
      rw [divisor, if_neg hm, hqmax]
      exact div_self (ne_of_gt hmq)

/-- C4: if every adjusted count in a collection iteration is `0`, the
divisor is `1` (the zero maximum is replaced, so no division by zero
occurs) and every source's reported fraction is `0`. -/
theorem C4_all_zero_counts_report_zero (ls : LoopState) (snap : List Datasource)
    (ls2 : LoopState) (rep : List (String × Int × ℚ))
    (hstate : ls.state = State.Collecting)
    (hstep : step ls snap = StepResult.ok ls2 rep)
    (hzero : ∀ p ∈ ls2.counts, p.2 = 0) :
    divisor (listMax (ls2.counts.map (·.2))) = 1 ∧ ∀ q ∈ rep, q.2.2 = 0 := by
  obtain ⟨cs, hcf, hne, hls2, hrep⟩ := step_collect_ok hstate hstep
  subst hrep
  subst hls2
  dsimp only at hzero ⊢
  have hvne : cs.map (·.2) ≠ ([] : List Int) := by
    intro hcontra
    exact hne (List.map_eq_nil_iff.mp hcontra)
  have hvzero : ∀ v ∈ cs.map (·.2), v = (0 : Int) := by
    intro v hv
    obtain ⟨p, hp, hvp⟩ := List.mem_map.mp hv
    rw [← hvp]
    exact hzero p hp
  have hm : listMax (cs.map (·.2)) = 0 := by
    refine le_antisymm (listMax_le hvne ?_) (listMax_nonneg hvne ?_)
    · intro x hx; rw [hvzero x hx]
    · intro x hx; rw [hvzero x hx]
  constructor
  · rw [hm]; rfl
  · intro q hq
    obtain ⟨p, hp, hfq⟩ := List.mem_map.mp hq
    subst hfq
    dsimp only
    rw [divisor, if_pos hm, hzero p hp]
    norm_num

/-- C6 (amended): in every collection iteration the per-source report
lines follow the iteration order of the `counts` dict — source names
already present in `counts` keep the position of their first insertion,
and names seen for the first time are appended in the snapshot's own
order — and NOT, as the original claim states, the registry's
command-line insertion order (see the counterexample). -/
theorem C6_report_order_follows_counts (ls : LoopState) (snap : List Datasource)
    (ls2 : LoopState) (rep : List (String × Int × ℚ))
    (hstate : ls.state = State.Collecting)
    (hnodup : (snap.map (·.name)).Nodup)
    (hstep : step ls snap = StepResult.ok ls2 rep) :
    rep.map (·.1) = dictKeys ls2.counts ∧
      dictKeys ls2.counts = dictKeys ls.counts ++
        (snap.map (·.name)).filter (fun n => (dictGet ls.counts n).isNone) := by
  obtain ⟨cs, hcf, hne, hls2, hrep⟩ := step_collect_ok hstate hstep
  subst hrep
  subst hls2
  exact ⟨mkReport_names cs, countsFold_keys hnodup hcf⟩

/-- C7: a command-line source name with no matching entry in the remote
data-source list leaves its record's uuid at the `0` sentinel, so start-up
reports an unresolved source and terminates with exit status 0 before the
polling loop is ever entered. -/
theorem C7_unresolved_name_exits_zero (names : List String)
    (snap : List Datasource) (n : String)
    (hmem : n ∈ names)
    (hnone : ∀ ds ∈ snap, ds.name ≠ n) :
    ∃ m, programInit true names snap = InitResult.unresolvedSource m ∧
      exitCodeOf (InitResult.unresolvedSource m) = some 0 := by
  have hsome : (dictGet (mkRegistry names) n).isSome :=
    mkRegistryAux_get_isSome (Or.inl hmem)
  obtain ⟨si, hsi⟩ := Option.isSome_iff_exists.mp hsome
  have hentry : (n, si) ∈ mkRegistry names := mem_of_dictGet hsi
  have hdef : si = defaultSource n := by
    have := mkRegistryAux_entry_default (by intro p hp; simp at hp) (n, si) hentry
    simpa using this
  have hzero : (resolveOne si snap).uuid = 0 := by
    rw [hdef, resolveOne_no_match (by intro ds hds; exact hnone ds hds)]
    rfl
  obtain ⟨m, hm⟩ :=
    @resolveGo_error snap (mkRegistry names) (mkRegistry names)
      ⟨(n, si), hentry, hzero⟩
  refine ⟨m, ?_, rfl⟩
  rw [programInit, if_pos rfl]
  have huu : resolveUuids (mkRegistry names) snap = Except.error m := hm
  rw [huu]

/-- C8: an invalid session after the login attempt makes start-up stop at
the login check with exit status 1: the registry is never resolved and the
polling loop is never entered. -/
theorem C8_invalid_session_exits_one (names : List String)
    (snap : List Datasource) :
    programInit false names snap = InitResult.loginFailed ∧
      exitCodeOf (programInit false names snap) = some 1 := by
  constructor <;> rfl

theorem step_sync_eq (sources reg2 : List (String × SourceInfo))
    (counts : List (String × Int)) (snap : List Datasource)
    (hsf : syncFold sources snap = some reg2) :
    step ⟨State.Syncing, sources, counts⟩ snap =
      StepResult.ok ⟨State.Collecting, reg2, counts⟩ [] := by
  rw [step]
  simp only [reduceIte]
  rw [hsf]

theorem step_collect_eq (sources : List (String × SourceInfo))
    (counts cs : List (String × Int)) (snap : List Datasource)
    (hcf : countsFold sources counts snap = some cs) (hne : cs ≠ []) :
    step ⟨State.Collecting, sources, counts⟩ snap =
      StepResult.ok ⟨State.Collecting, sources, cs⟩ (mkReport cs) := by
  rw [step]
  simp only [reduceCtorEq, reduceIte]
  rw [hcf]
  simp [hne]

/-! Concrete fixtures for witnesses and counterexamples. -/

def siA : SourceInfo := { name := "a", uuid := 1, chan := 0, count := 0, offset := 10 }

def siB : SourceInfo := { name := "b", uuid := 2, chan := 0, count := 0, offset := 20 }

def reg1 : List (String × SourceInfo) := [("a", siA), ("b", siB)]

def dsA : Datasource := { name := "a", uuid := 1, num_packets := 17 }

def dsB : Datasource := { name := "b", uuid := 2, num_packets := 25 }

def snap1 : List Datasource := [dsA, dsB]

def ls1 : LoopState := ⟨State.Collecting, reg1, []⟩

def cs1 : List (String × Int) := [("a", 7), ("b", 5)]

def ls1ok : LoopState := ⟨State.Collecting, reg1, cs1⟩

def rep1 : List (String × Int × ℚ) := mkReport cs1

/-- Witness for C1: with offsets 10/20 and snapshot packet counts 17/25,
source "a" is recorded and reported with count 17 - 10 = 7. -/
theorem C1_collect_count_exact_witness :
    dictGet ls1ok.counts "a" = some (dsA.num_packets - siA.offset) ∧
      ∃ f, ("a", dsA.num_packets - siA.offset, f) ∈ rep1 :=
  C1_collect_count_exact ls1 snap1 ls1ok rep1 "a" siA dsA rfl (by decide)
    (by decide) rfl (by decide)
    (step_collect_eq reg1 [] cs1 snap1 (by decide) (by decide))

def siA0 : SourceInfo := { name := "a", uuid := 1, chan := 0, count := 0, offset := 0 }

def siB0 : SourceInfo := { name := "b", uuid := 2, chan := 0, count := 0, offset := 0 }

def reg0 : List (String × SourceInfo) := [("a", siA0), ("b", siB0)]

def snap0 : List Datasource := [⟨"a", 1, 100⟩, ⟨"b", 2, 50⟩]

def reg3 : List (String × SourceInfo) :=
  [("a", { siA0 with offset := 100 }), ("b", { siB0 with offset := 50 })]

def ls3 : LoopState := ⟨State.Collecting, reg3, []⟩

def snaps3 : List (List Datasource) := [[⟨"a", 1, 200⟩, ⟨"b", 2, 100⟩]]

def ls4 : LoopState := ⟨State.Collecting, reg3, [("a", 100), ("b", 50)]⟩

/-- Witness for C3: syncing over the snapshot `a=100, b=50` stores offset
100 for "a" at the transition to `Collecting`, and a further collecting
iteration leaves the registry untouched. -/
theorem C3_offset_set_once_at_sync_witness :
    dictGet ls3.sources "a" = some { siA0 with offset := 100 } ∧
      ls3.state = State.Collecting ∧
      (runStates ls3 snaps3 = some ls4 → ls4.sources = ls3.sources) :=
  C3_offset_set_once_at_sync reg0 snap0 ls3 [] "a" siA0 ⟨"a", 1, 100⟩ snaps3 ls4
    (step_sync_eq reg0 reg3 [] snap0 (by decide))
    (by decide) (by decide) rfl (by decide)

/-- Witness for C2 (amended) at the nonnegative run `counts = a:7, b:5`:
all fractions lie in `[0, 1]` and the maximum source reports exactly 1. -/
theorem C2_fraction_bounds_witness :
    (∀ q ∈ rep1, 0 ≤ q.2.2 ∧ q.2.2 ≤ 1) ∧
      (listMax (ls1ok.counts.map (·.2)) ≠ 0 →
        ∀ q ∈ rep1, q.2.1 = listMax (ls1ok.counts.map (·.2)) → q.2.2 = 1) :=
  C2_fraction_bounds ls1 snap1 ls1ok rep1 rfl
    (step_collect_eq reg1 [] cs1 snap1 (by decide) (by decide)) (by decide)

def siA5 : SourceInfo := { name := "a", uuid := 1, chan := 0, count := 0, offset := 5 }

def siB7 : SourceInfo := { name := "b", uuid := 2, chan := 0, count := 0, offset := 7 }

def reg2 : List (String × SourceInfo) := [("a", siA5), ("b", siB7)]

def lsC2 : LoopState := ⟨State.Collecting, reg2, []⟩

def snap2 : List Datasource := [⟨"a", 1, 2⟩, ⟨"b", 2, 7⟩]

def cs2 : List (String × Int) := [("a", -3), ("b", 0)]

def rep2 : List (String × Int × ℚ) := mkReport cs2

theorem rep2_eq : rep2 = [("a", -3, (-3 : ℚ)), ("b", 0, 0)] := by
  norm_num [rep2, mkReport, cs2, listMax, divisor]

/-- Counterexample to C2 as stated: with offsets `a:5, b:7` and the next
snapshot reporting `a:2, b:7`, the adjusted counts are `a:-3, b:0`; source
"a" reports the fraction `-3`, outside `[0, 1]`, and source "b" — whose
adjusted count 0 IS the maximum — reports `0`, not `1.0`. -/
theorem C2_fraction_bounds_counterexample :
    step lsC2 snap2 = StepResult.ok ⟨State.Collecting, reg2, cs2⟩ rep2 ∧
      ("a", (-3 : Int), (-3 : ℚ)) ∈ rep2 ∧ ¬((0 : ℚ) ≤ -3) ∧
      ("b", (0 : Int), (0 : ℚ)) ∈ rep2 ∧ listMax (cs2.map (·.2)) = 0 ∧
      ¬((0 : ℚ) = 1) :=
  ⟨step_collect_eq reg2 [] cs2 snap2 (by decide) (by decide),
   by rw [rep2_eq]; simp, by norm_num,
   by rw [rep2_eq]; simp, by decide, by norm_num⟩

def snapZ : List Datasource := [⟨"a", 1, 5⟩, ⟨"b", 2, 7⟩]

def csZ : List (String × Int) := [("a", 0), ("b", 0)]

def lsZ : LoopState := ⟨State.Collecting, reg2, csZ⟩

def repZ : List (String × Int × ℚ) := mkReport csZ

/-- Witness for C4: when the snapshot equals the sync-time baselines, both
adjusted counts are 0, the divisor is 1, and both sources report 0. -/
theorem C4_all_zero_counts_report_zero_witness :
    divisor (listMax (lsZ.counts.map (·.2))) = 1 ∧ ∀ q ∈ repZ, q.2.2 = 0 :=
  C4_all_zero_counts_report_zero lsC2 snapZ lsZ repZ rfl
    (step_collect_eq reg2 [] csZ snapZ (by decide) (by decide)) (by decide)

def dsX : Datasource := { name := "c", uuid := 9, num_packets := 3 }

/-- Witness for C5: a snapshot entry named "c", absent from the registry
`a, b`, makes the collecting iteration raise `KeyError`. -/
theorem C5_unregistered_snapshot_name_raises_witness :
    step ls1 [dsX] = StepResult.keyError :=
  C5_unregistered_snapshot_name_raises ls1 [dsX] dsX (by decide) (by decide)

def regBA : List (String × SourceInfo) := mkRegistry ["a", "b"]

def lsC6 : LoopState := ⟨State.Collecting, regBA, []⟩

def snapC6 : List Datasource := [⟨"b", 2, 4⟩, ⟨"a", 1, 3⟩]

def csC6 : List (String × Int) := [("b", 4), ("a", 3)]

def repC6 : List (String × Int × ℚ) := mkReport csC6

/-- Counterexample to C6 as stated: the registry built from the
command-line order `["a", "b"]` iterates as `a, b`, but when the first
collecting snapshot lists `b` before `a`, the report lines come out in the
`counts` dict's order `b, a`, not the registry's order. -/
theorem C6_report_order_counterexample :
    dictKeys lsC6.sources = ["a", "b"] ∧
      step lsC6 snapC6 = StepResult.ok ⟨State.Collecting, regBA, csC6⟩ repC6 ∧
      repC6.map (·.1) = ["b", "a"] ∧
      repC6.map (·.1) ≠ dictKeys lsC6.sources :=
  ⟨by decide, step_collect_eq regBA [] csC6 snapC6 (by decide) (by decide),
   by rw [repC6, mkReport_names]; decide,
   by rw [repC6, mkReport_names]; decide⟩

def regABC : List (String × SourceInfo) := mkRegistry ["a", "b", "c"]

def lsC6b : LoopState := ⟨State.Collecting, regABC, [("b", 4), ("a", 3)]⟩

def snapC6b : List Datasource := [⟨"a", 1, 5⟩, ⟨"c", 3, 2⟩, ⟨"b", 2, 6⟩]

def csC6b : List (String × Int) := [("b", 6), ("a", 5), ("c", 2)]

def lsC6bok : LoopState := ⟨State.Collecting, regABC, csC6b⟩

def repC6b : List (String × Int × ℚ) := mkReport csC6b

/-- Witness for C6 (amended) at a later collecting iteration: with
`counts` already holding `b, a` (in that insertion order) and the next
snapshot listing `a, c, b`, the report keeps the existing order `b, a` and
appends the newly seen `c`: lines come out `b, a, c`. -/
theorem C6_report_order_follows_counts_witness :
    repC6b.map (·.1) = dictKeys lsC6bok.counts ∧
      dictKeys lsC6bok.counts = dictKeys lsC6b.counts ++
        (snapC6b.map (·.name)).filter (fun n => (dictGet lsC6b.counts n).isNone) :=
  C6_report_order_follows_counts lsC6b snapC6b lsC6bok repC6b rfl (by decide)
    (step_collect_eq regABC [("b", 4), ("a", 3)] csC6b snapC6b (by decide) (by decide))

def snapC7 : List Datasource := [⟨"a", 5, 0⟩]

/-- Witness for C7: with sources `a, b` requested but only "a" known
remotely, start-up reports an unresolved source and exits with status 0. -/
theorem C7_unresolved_name_exits_zero_witness :
    ∃ m, programInit true ["a", "b"] snapC7 = InitResult.unresolvedSource m ∧
      exitCodeOf (InitResult.unresolvedSource m) = some 0 :=
  C7_unresolved_name_exits_zero ["a", "b"] snapC7 "b" (by decide) (by decide)

/-- Witness for C8 at concrete inputs. -/
theorem C8_invalid_session_exits_one_witness :
    programInit false ["a", "b"] snapC7 = InitResult.loginFailed ∧
      exitCodeOf (programInit false ["a", "b"] snapC7) = some 1 :=
  C8_invalid_session_exits_one ["a", "b"] snapC7

/-- Witness for C9 at concrete inputs. -/
theorem C9_state_error_unreachable_witness :
    (loopInit reg0).state = State.Syncing ∧
      step ls1 snap1 ≠ StepResult.stateError ∧
      stepStateOf (step ls1 snap1) ≠ some State.Syncing :=
  C9_state_error_unreachable reg0 ls1 snap1

def lsC10 : LoopState := ⟨State.Collecting, reg1, [("b", 9)]⟩

def snapC10 : List Datasource := [⟨"a", 1, 12⟩]

def csC10 : List (String × Int) := [("b", 9), ("a", 2)]

def lsC10ok : LoopState := ⟨State.Collecting, reg1, csC10⟩

def repC10 : List (String × Int × ℚ) := mkReport csC10

/-- Witness for C10: source "b", absent from the current snapshot, keeps
its stale adjusted count 9, is re-reported, and its 9 still dominates the
maximum used as the divisor. -/
theorem C10_stale_counts_persist_witness :
    dictGet lsC10ok.counts "b" = some 9 ∧ (∃ f, ("b", (9 : Int), f) ∈ repC10) ∧
      (9 : Int) ≤ listMax (lsC10ok.counts.map (·.2)) :=
  C10_stale_counts_persist lsC10 snapC10 lsC10ok repC10 "b" 9 rfl (by decide)
    (by decide) (step_collect_eq reg1 [("b", 9)] csC10 snapC10 (by decide) (by decide))

end Shootout
